import Mathlib

/-!
Verification of the `wait-for` helper library (src/src/index.ts) against its
natural-language specification.

The library exposes promise-returning functions that wait for entities to
appear in a hierarchical instance tree.  Each function performs a synchronous
initial check; if it fails, it races a change-notification subscription
against a "container destroyed" notification and a timeout.

Shallow embedding used here:
* An instance is identified by a `Nat` id plus `InstData` (its `Name` and
  `ClassName` properties).  The parent instance at call
  time is a `Snapshot`: its id and the flattened preorder list of its
  descendants.
* The class hierarchy backing `Instance:IsA` is an explicit parameter
  `isA : String → String → Bool`.
* The host delivers notifications one at a time; a run of a pending wait is
  a list of timestamped events (`TEvent`), in delivery order.  Timestamps
  are rationals (seconds since the call) used only by the timeout race:
  the timeout rejection fires as soon as time `timeout` is reached, so only
  the prefix of events strictly before `timeout` can settle the promise.
* A pending single-candidate wait settles (`WSettle`) either by resolving at
  a trace position, rejecting with a `WaitForError` string value at a trace
  position (the `watchDestroying` race), or timing out.  Position `0` is
  reserved for synchronous (call-time) resolution; the event at trace index
  `j` settles at position `j + 1`.
-/

/-- `Name` and `ClassName` of an instance, as tested by the event filters. -/
structure InstData where
  name : String
  clsName : String
deriving DecidableEq, Repr

/-- One descendant of the watched parent in the call-time snapshot:
`direct` tells whether it is a direct child of the parent. -/
structure ChildEntry where
  direct : Bool
  id : Nat
  data : InstData
deriving DecidableEq, Repr

/-- Call-time snapshot of the parent instance: its id and the sequence of
all its strict descendants in the order `FindFirstChild` visits them
(children first in sibling order, descending depth-first when recursive;
the flattened preorder traversal of the subtree). -/
structure Snapshot where
  id : Nat
  desc : List ChildEntry
deriving DecidableEq, Repr

/-- A matched instance: what a resolved wait hands back (id plus data). -/
structure Found where
  id : Nat
  data : InstData
deriving DecidableEq, Repr

def ChildEntry.found (c : ChildEntry) : Found := ⟨c.id, c.data⟩

/-- `parent.FindFirstChild(childName, recursive)`: the first descendant with
the given `Name`; only direct children are eligible unless `recursive`. -/
def Snapshot.findFirstChild (parent : Snapshot) (childName : String)
    (recursive : Bool) : Option ChildEntry :=
  parent.desc.find? fun c => (recursive || c.direct) && c.data.name == childName

/-- `parent.FindFirstChildWhichIsA(className, recursive)`. -/
def Snapshot.findFirstChildWhichIsA (parent : Snapshot)
    (isA : String → String → Bool) (clsName : String) (recursive : Bool) :
    Option ChildEntry :=
  parent.desc.find? fun c => (recursive || c.direct) && isA c.data.clsName clsName

/-- `parent.FindFirstChildOfClass(className)` (never recursive). -/
def Snapshot.findFirstChildOfClass (parent : Snapshot) (clsName : String) :
    Option ChildEntry :=
  parent.desc.find? fun c => c.direct && c.data.clsName == clsName

/-- A host notification, relative to the watched parent instance:
* `added direct childId d` — an instance was added in the parent's subtree;
  `direct` tells whether it became a direct child (so `ChildAdded` fires
  exactly when `direct`, and `DescendantAdded` fires in both cases);
* `destroying id` — the `Destroying` signal of instance `id` fired;
* `heartbeat` — one `RunService.Heartbeat` step;
* `primaryPartChanged v` — the `PrimaryPart` property changed, new value `v`;
* `valueChanged v` — an `ObjectValue.Changed` fired with new value `v`;
* `attributeChanged n v` — attribute `n` changed, new value `v`. -/
inductive Event where
  | added (direct : Bool) (childId : Nat) (d : InstData)
  | destroying (id : Nat)
  | heartbeat
  | primaryPartChanged (v : Option Nat)
  | valueChanged (v : Option Nat)
  | attributeChanged (n : String) (v : Option Nat)
deriving DecidableEq, Repr

/-- A delivered event with its delivery time (seconds since the call). -/
structure TEvent where
  time : Rat
  ev : Event
deriving DecidableEq, Repr

/-- `enum WaitForError { Destroyed = "Destroyed" }`. -/
def WaitForError.Destroyed : String := "Destroyed"

/-- `const DEFAULT_TIMEOUT = 60`. -/
def DEFAULT_TIMEOUT : Rat := 60

/-- How a single-candidate wait settles.  `okAt 0 v` is synchronous
resolution; `okAt (j+1) v` / `rejectedAt (j+1) s` settle at trace index `j`.
`rejectedAt` carries the rejection value (a `WaitForError` string). -/
inductive WSettle (α : Type) where
  | okAt (k : Nat) (v : α)
  | rejectedAt (k : Nat) (s : String)
  | timedOut
deriving DecidableEq, Repr

/-- The events a pending promise can still react to: `Promise.timeout`
cancels the race at time `timeout`, so only events strictly earlier count. -/
def truncate (timeout : Rat) (trace : List TEvent) : List Event :=
  (trace.takeWhile (fun te => te.time < timeout)).map (fun te => te.ev)

/-- The `watchDestroying(parent, Promise.fromEvent(signal, filter)).timeout(t)`
race, run over the delivered events: the first event that either is
`Destroying` of the watched instance (reject with `WaitForError.Destroyed`)
or passes the `Promise.fromEvent` filter (resolve) settles the promise;
`k` is the position of the next event. -/
def raceLoop (pid : Nat) (f : Event → Option α) : Nat → List Event → WSettle α
  | _, [] => .timedOut
  | k, e :: rest =>
      if e = Event.destroying pid then .rejectedAt k WaitForError.Destroyed
      else
        match f e with
        | some v => .okAt k v
        | none => raceLoop pid f (k + 1) rest

/-- Result of calling one of the single-candidate wait functions:
`immediate` is the synchronously resolved value (when the initial check
succeeded), `subscribeCount` the number of host subscriptions registered at
call time, and `settle` the promise's settlement given the events delivered
after the call. -/
structure WaitCall (α : Type) where
  immediate : Option α
  subscribeCount : Nat
  settle : List TEvent → WSettle α

/-- A wait that resolved from its initial synchronous check: no
subscription is created and the promise is already resolved. -/
def WaitCall.resolvedNow (v : α) : WaitCall α :=
  { immediate := some v, subscribeCount := 0, settle := fun _ => .okAt 0 v }

/-- A wait whose initial check failed: `Promise.fromEvent` registers one
connection and `watchDestroying` a second; the promise then runs the race. -/
def WaitCall.pending (pid : Nat) (f : Event → Option α) (timeout : Rat) :
    WaitCall α :=
  { immediate := none
    subscribeCount := 2
    settle := fun trace => raceLoop pid f 1 (truncate timeout trace) }

/-- Filter of `Promise.fromEvent(recursive ? parent.DescendantAdded :
parent.ChildAdded, (c) => p c)`: `ChildAdded` only delivers direct
additions, `DescendantAdded` delivers all additions in the subtree. -/
def childAddedFilter (recursive : Bool) (p : InstData → Bool) :
    Event → Option Found
  | .added direct cid d =>
      if (recursive || direct) && p d then some ⟨cid, d⟩ else none
  | _ => none

/-- `waitForChild(parent, childName, recursive = false, timeout = 60)`. -/
def waitForChild (parent : Snapshot) (childName : String) (recursive : Bool := false)
    (timeout : Rat := DEFAULT_TIMEOUT) : WaitCall Found :=
  match parent.findFirstChild childName recursive with
  | some c => WaitCall.resolvedNow c.found
  | none =>
      WaitCall.pending parent.id
        (childAddedFilter recursive (fun d => d.name = childName)) timeout

/-- `waitForChildWhichIsA(parent, className, recursive = false, timeout = 60)`.
Note the subscription is always to `parent.ChildAdded` (direct additions
only), even when `recursive` is set; only the initial check recurses. -/
def waitForChildWhichIsA (parent : Snapshot) (isA : String → String → Bool)
    (clsName : String) (recursive : Bool := false)
    (timeout : Rat := DEFAULT_TIMEOUT) : WaitCall Found :=
  match parent.findFirstChildWhichIsA isA clsName recursive with
  | some c => WaitCall.resolvedNow c.found
  | none =>
      WaitCall.pending parent.id
        (childAddedFilter false (fun d => isA d.clsName clsName)) timeout

/-- `waitForChildOfClass(parent, className, timeout = 60)`. -/
def waitForChildOfClass (parent : Snapshot) (clsName : String)
    (timeout : Rat := DEFAULT_TIMEOUT) : WaitCall Found :=
  match parent.findFirstChildOfClass clsName with
  | some c => WaitCall.resolvedNow c.found
  | none =>
      WaitCall.pending parent.id
        (childAddedFilter false (fun d => d.clsName = clsName)) timeout

/-- Filter of `Promise.fromEvent(model.GetPropertyChangedSignal("PrimaryPart"),
() => model.PrimaryPart !== undefined).then(() => model.PrimaryPart!)`: the
event carries the new current value of the property. -/
def primaryPartFilter : Event → Option Nat
  | .primaryPartChanged v => v
  | _ => none

/-- `waitForPrimaryPart(model, timeout = 60)`; `primaryPart` is
`model.PrimaryPart` at call time. -/
def waitForPrimaryPart (modelId : Nat) (primaryPart : Option Nat)
    (timeout : Rat := DEFAULT_TIMEOUT) : WaitCall Nat :=
  match primaryPart with
  | some part => WaitCall.resolvedNow part
  | none => WaitCall.pending modelId primaryPartFilter timeout

/-- Filter of `Promise.fromEvent(objectValue.Changed, (v) => v !== undefined)
.then(() => objectValue.Value!)`: `Changed` carries the new value. -/
def objectValueFilter : Event → Option Nat
  | .valueChanged v => v
  | _ => none

/-- `waitForObjectValue(objectValue, timeout = 60)`; `value` is
`objectValue.Value` at call time. -/
def waitForObjectValue (objectId : Nat) (value : Option Nat)
    (timeout : Rat := DEFAULT_TIMEOUT) : WaitCall Nat :=
  match value with
  | some v => WaitCall.resolvedNow v
  | none => WaitCall.pending objectId objectValueFilter timeout

/-- Modelled from the spec: `waitForAttribute(instance, attributeName,
timeout = DEFAULT_TIMEOUT)` is documented in the repository's README but its
implementation is not present in `src/src/index.ts`.  Per the spec table,
its satisfaction check is "named attribute is non-empty" and its change
source is "attribute-changed, filtered by name", raced (like every variant
of the ConditionWaiter pattern) against the instance's destroy signal and
the timeout.  `attrs` is the instance's attribute map at call time. -/
def waitForAttribute (instId : Nat) (attrs : String → Option Nat)
    (attrName : String) (timeout : Rat := DEFAULT_TIMEOUT) : WaitCall Nat :=
  match attrs attrName with
  | some v => WaitCall.resolvedNow v
  | none =>
      WaitCall.pending instId
        (fun e =>
          match e with
          | .attributeChanged n v => if n = attrName then v else none
          | _ => none)
        timeout

/-- How a `waitForCustom` call settles: resolve or raise synchronously at
call time, resolve or raise at a heartbeat (position `k` in the trace), or
time out.  A raise is the predicate's own exception escaping the core
unwrapped (the core installs no handler around the predicate). -/
inductive CustomSettle (α ε : Type) where
  | immediateOk (v : α)
  | immediateRaise (e : ε)
  | okAt (k : Nat) (v : α)
  | raisedAt (k : Nat) (e : ε)
  | timedOut
deriving DecidableEq, Repr

/-- Instrumented run of a `waitForCustom` promise: its settlement, the total
number of predicate invocations (the call-time one included), and whether
the `Heartbeat` connection is still connected afterwards (`resolve` paths
call `hb.Disconnect()`, the timeout cancels via `onCancel`). -/
structure CustomRun (α ε : Type) where
  settle : CustomSettle α ε
  predCalls : Nat
  hbConnected : Bool
deriving DecidableEq, Repr

/-- Result of calling `waitForCustom`: the call-time predicate invocation
(`immediate`), the subscriptions registered at call time, and the run over
the subsequently delivered events. -/
structure CustomCall (α ε : Type) where
  immediate : Except ε (Option α)
  subscribeCount : Nat
  run : List TEvent → CustomRun α ε

/-- The `RunService.Heartbeat` polling loop of `waitForCustom`: each
heartbeat invokes the predicate once (`n` is the index of the next
invocation, `k` the position of the next event, `calls` the invocations so
far); a non-`undefined` value disconnects and resolves; an exception
escapes with the connection still up; other events are not subscribed. -/
def customLoop (pred : Nat → Except ε (Option α)) :
    Nat → Nat → Nat → List Event → CustomRun α ε
  | _, _, calls, [] => ⟨.timedOut, calls, false⟩
  | n, k, calls, e :: rest =>
      if e = Event.heartbeat then
        match pred n with
        | .error err => ⟨.raisedAt k err, calls + 1, true⟩
        | .ok (some v) => ⟨.okAt k v, calls + 1, false⟩
        | .ok none => customLoop pred (n + 1) (k + 1) (calls + 1) rest
      else customLoop pred n (k + 1) calls rest

/-- `waitForCustom(predicate, timeout = 60)`.  The predicate is modelled as
a function of its invocation index (it may read arbitrary mutable state)
returning either an exception or `undefined`/a value.  It is invoked once
synchronously; only if that yields `undefined` is a `Heartbeat` connection
made and the polling promise (raced against the timeout) created. -/
def waitForCustom (pred : Nat → Except ε (Option α))
    (timeout : Rat := DEFAULT_TIMEOUT) : CustomCall α ε :=
  match pred 0 with
  | .error e =>
      { immediate := .error e, subscribeCount := 0,
        run := fun _ => ⟨.immediateRaise e, 1, false⟩ }
  | .ok (some v) =>
      { immediate := .ok (some v), subscribeCount := 0,
        run := fun _ => ⟨.immediateOk v, 1, false⟩ }
  | .ok none =>
      { immediate := .ok none, subscribeCount := 1,
        run := fun trace => customLoop pred 1 1 1 (truncate timeout trace) }

/-- The resolution position and value of a settled per-child wait, when it
resolved. -/
def WSettle.okParts : WSettle α → Option (Nat × α)
  | .okAt k v => some (k, v)
  | _ => none

/-- `Promise.all` success case: every constituent wait resolved; collects
their (position, value) pairs in input order. -/
def allOk : List (WSettle α) → Option (List (Nat × α))
  | [] => some []
  | s :: rest =>
      match s.okParts, allOk rest with
      | some pc, some pcs => some (pc :: pcs)
      | _, _ => none

/-- Position of the earliest `Destroying`-rejection among the constituent
waits (`none` when every failure, if any, is a timeout).  `Promise.all`
rejects at the first rejection; timeouts settle only at time `timeout`,
after every counted event. -/
def firstRejPos : List (WSettle α) → Option Nat
  | [] => none
  | WSettle.rejectedAt k _ :: rest =>
      match firstRejPos rest with
      | some m => some (min k m)
      | none => some k
  | _ :: rest => firstRejPos rest

/-- The `destroyed` flag of `waitForChildren` at the moment `Promise.all`
resolves: some resolved child's `Destroying` fired while its secondary
watch was connected, i.e. after that child's resolution (position
`> pc.1`) and no later than the last resolution (position `≤ kMax`, when
the success handler disconnects every watch). -/
def destroyedFlag (events : List Event) (pcs : List (Nat × Found))
    (kMax : Nat) : Bool :=
  pcs.any fun pc =>
    (List.range events.length).any fun j =>
      decide (events.get? j = some (Event.destroying pc.2.id))
        && decide (pc.1 < j + 1) && decide (j + 1 ≤ kMax)

/-- Outcome of a `waitForChildren` call: resolve with the children in input
order, reject with a `WaitForError` value, or reject with the timeout. -/
inductive BOutcome where
  | ok (children : List Found)
  | rejected (s : String)
  | timedOut
deriving DecidableEq, Repr

/-- Instrumented batch run: the outcome, plus how many secondary
`Destroying` watches are still connected after the batch settles. -/
structure BatchRun where
  outcome : BOutcome
  leaked : Nat
deriving DecidableEq, Repr

/-- Result of calling `waitForChildren`. -/
structure BatchCall where
  run : List TEvent → BatchRun

/-- The constituent `waitForChild` settlements, one per requested name, in
input order, all over the same delivered events. -/
def batchSettles (parent : Snapshot) (childrenNames : List String)
    (recursive : Bool) (timeout : Rat) (trace : List TEvent) :
    List (WSettle Found) :=
  childrenNames.map fun nm => (waitForChild parent nm recursive timeout).settle trace

/-- The resolution positions of the constituent waits that resolved. -/
def resolvedPositions (settles : List (WSettle Found)) : List Nat :=
  settles.filterMap fun s => (WSettle.okParts s).map Prod.fst

/-- Semantics of a `waitForChildren` promise over the delivered events.  If
every constituent resolves, the `Promise.all(...).then` handler runs at the
last resolution: it disconnects every secondary watch, then rejects with
`WaitForError.Destroyed` if the `destroyed` flag was set, else resolves
with the children in input order.  If some constituent fails,
`Promise.all` rejects at the earliest failure (cancelling constituents
still pending, so only children resolved before that point ever connected
a watch); the `then` success handler never runs, so those watches stay
connected. -/
def waitForChildrenRun (parent : Snapshot) (childrenNames : List String)
    (recursive : Bool) (timeout : Rat) (trace : List TEvent) : BatchRun :=
  match allOk (batchSettles parent childrenNames recursive timeout trace) with
  | some pcs =>
      if destroyedFlag (truncate timeout trace) pcs
          ((pcs.map Prod.fst).foldl Nat.max 0) then
        ⟨.rejected WaitForError.Destroyed, 0⟩
      else
        ⟨.ok (pcs.map Prod.snd), 0⟩
  | none =>
      match firstRejPos (batchSettles parent childrenNames recursive timeout trace) with
      | some p =>
          ⟨.rejected WaitForError.Destroyed,
            ((resolvedPositions
                (batchSettles parent childrenNames recursive timeout trace)).filter
              fun k => decide (k < p)).length⟩
      | none =>
          ⟨.timedOut,
            (resolvedPositions
              (batchSettles parent childrenNames recursive timeout trace)).length⟩

/-- `waitForChildren(parent, childrenNames, recursive = false, timeout = 60)`:
one `waitForChild` per name over the same events; on each resolution a
secondary `Destroying` watch is connected to the resolved child
(`child.Destroying.Connect(() => destroyed = true)`). -/
def waitForChildren (parent : Snapshot) (childrenNames : List String)
    (recursive : Bool := false) (timeout : Rat := DEFAULT_TIMEOUT) : BatchCall :=
  { run := waitForChildrenRun parent childrenNames recursive timeout }

/-! ### Generic lemmas about the race and polling loops -/

/-- An event is decisive for a pending race iff it is the watched
instance's `Destroying` or passes the resolution filter. -/
def decisive (pid : Nat) (f : Event → Option α) (e : Event) : Prop :=
  e = Event.destroying pid ∨ (f e).isSome = true

instance (pid : Nat) (f : Event → Option α) (e : Event) :
    Decidable (decisive pid f e) := by
  unfold decisive; infer_instance

theorem raceLoop_timedOut_iff {α : Type} (pid : Nat) (f : Event → Option α) :
    ∀ (evs : List Event) (k : Nat),
      raceLoop pid f k evs = .timedOut ↔
        ∀ e ∈ evs, ¬ decisive pid f e := by
  intro evs
  induction evs with
  | nil => intro k; simp [raceLoop]
  | cons e rest ih =>
      intro k
      by_cases hd : e = Event.destroying pid
      · simp [raceLoop, hd, decisive]
      · cases hf : f e with
        | some v => simp [raceLoop, hd, hf, decisive]
        | none => simp [raceLoop, hd, hf, decisive, ih (k + 1)]

theorem raceLoop_rejectedAt_val {α : Type} (pid : Nat) (f : Event → Option α) :
    ∀ (evs : List Event) (k k' : Nat) (s : String),
      raceLoop pid f k evs = .rejectedAt k' s → s = WaitForError.Destroyed := by
  intro evs
  induction evs with
  | nil => intro k k' s h; simp [raceLoop] at h
  | cons e rest ih =>
      intro k k' s h
      by_cases hd : e = Event.destroying pid
      · rw [raceLoop, if_pos hd] at h
        cases h
        rfl
      · cases hf : f e with
        | some v => rw [raceLoop, if_neg hd, hf] at h; cases h
        | none => rw [raceLoop, if_neg hd, hf] at h; exact ih (k + 1) k' s h

theorem raceLoop_okAt_elim {α : Type} (pid : Nat) (f : Event → Option α) :
    ∀ (evs : List Event) (k k' : Nat) (v : α),
      raceLoop pid f k evs = .okAt k' v →
        ∃ j e, evs.get? j = some e ∧ f e = some v ∧
          e ≠ Event.destroying pid ∧ k' = k + j := by
  intro evs
  induction evs with
  | nil => intro k k' v h; simp [raceLoop] at h
  | cons e rest ih =>
      intro k k' v h
      by_cases hd : e = Event.destroying pid
      · rw [raceLoop, if_pos hd] at h; cases h
      · cases hf : f e with
        | some w =>
            rw [raceLoop, if_neg hd, hf] at h
            cases h
            exact ⟨0, e, rfl, hf, hd, by omega⟩
        | none =>
            rw [raceLoop, if_neg hd, hf] at h
            obtain ⟨j, e', hj, hfe, hde, hk⟩ := ih (k + 1) k' v h
            exact ⟨j + 1, e', by simpa using hj, hfe, hde, by omega⟩

theorem raceLoop_hit {α : Type} (pid : Nat) (f : Event → Option α) :
    ∀ (evs : List Event) (j : Nat) (e : Event) (v : α) (k : Nat),
      evs.get? j = some e → f e = some v → e ≠ Event.destroying pid →
      (∀ i e', i < j → evs.get? i = some e' → ¬ decisive pid f e') →
      raceLoop pid f k evs = .okAt (k + j) v := by
  intro evs
  induction evs with
  | nil => intro j e v k hj; simp at hj
  | cons e0 rest ih =>
      intro j e v k hj hf he hmin
      cases j with
      | zero =>
          simp only [List.get?] at hj
          cases hj
          rw [raceLoop, if_neg he, hf]
          simp
      | succ j =>
          have h0 := hmin 0 e0 (Nat.succ_pos j) rfl
          have hd0 : e0 ≠ Event.destroying pid := fun h => h0 (Or.inl h)
          have hf0 : f e0 = none := by
            cases hfe : f e0 with
            | none => rfl
            | some w => exact absurd (Or.inr (by simp [hfe])) h0
          rw [raceLoop, if_neg hd0, hf0]
          have heq : k + (j + 1) = (k + 1) + j := by omega
          rw [heq]
          exact ih j e v (k + 1) (by simpa using hj) hf he
            (fun i e' hi hie => hmin (i + 1) e' (by omega) (by simpa using hie))

theorem raceLoop_destroyHit {α : Type} (pid : Nat) (f : Event → Option α) :
    ∀ (evs : List Event) (j : Nat) (k : Nat),
      evs.get? j = some (Event.destroying pid) →
      (∀ i e', i < j → evs.get? i = some e' → ¬ decisive pid f e') →
      raceLoop pid f k evs = .rejectedAt (k + j) WaitForError.Destroyed := by
  intro evs
  induction evs with
  | nil => intro j k hj; simp at hj
  | cons e0 rest ih =>
      intro j k hj hmin
      cases j with
      | zero =>
          simp only [List.get?] at hj
          cases hj
          rw [raceLoop, if_pos rfl]
          simp
      | succ j =>
          have h0 := hmin 0 e0 (Nat.succ_pos j) rfl
          have hd0 : e0 ≠ Event.destroying pid := fun h => h0 (Or.inl h)
          have hf0 : f e0 = none := by
            cases hfe : f e0 with
            | none => rfl
            | some w => exact absurd (Or.inr (by simp [hfe])) h0
          rw [raceLoop, if_neg hd0, hf0]
          have heq : k + (j + 1) = (k + 1) + j := by omega
          rw [heq]
          exact ih j (k + 1) (by simpa using hj)
            (fun i e' hi hie => hmin (i + 1) e' (by omega) (by simpa using hie))

/-- Number of heartbeat ticks among the delivered events. -/
def hbCount (evs : List Event) : Nat :=
  evs.countP fun e => decide (e = Event.heartbeat)

theorem hbCount_cons_hb (rest : List Event) :
    hbCount (Event.heartbeat :: rest) = hbCount rest + 1 := by
  simp [hbCount, List.countP_cons]

theorem hbCount_cons_other (e : Event) (rest : List Event)
    (he : e ≠ Event.heartbeat) : hbCount (e :: rest) = hbCount rest := by
  simp [hbCount, List.countP_cons, he]

theorem customLoop_all_none {α ε : Type} (pred : Nat → Except ε (Option α)) :
    ∀ (evs : List Event) (n k calls : Nat),
      (∀ j, j < hbCount evs → pred (n + j) = .ok none) →
      customLoop pred n k calls evs = ⟨.timedOut, calls + hbCount evs, false⟩ := by
  intro evs
  induction evs with
  | nil => intro n k calls _; simp [customLoop, hbCount]
  | cons e rest ih =>
      intro n k calls hall
      by_cases he : e = Event.heartbeat
      · subst he
        have hcnt := hbCount_cons_hb rest
        have h0 : pred n = .ok none := by
          have := hall 0 (by omega)
          simpa using this
        rw [customLoop, if_pos rfl, h0,
          ih (n + 1) (k + 1) (calls + 1) (fun j hj => by
            have := hall (j + 1) (by omega)
            have hsh : n + (j + 1) = n + 1 + j := by omega
            rwa [hsh] at this)]
        rw [hcnt]
        have heq : calls + 1 + hbCount rest = calls + (hbCount rest + 1) := by
          omega
        rw [heq]
      · have hcnt := hbCount_cons_other e rest he
        rw [customLoop, if_neg he,
          ih n (k + 1) calls (fun j hj => hall j (by omega)), hcnt]


/-! ### Lemmas about the batch composition -/

theorem allOk_of_forall_ok {α : Type} :
    ∀ (l : List (WSettle α)), (∀ s ∈ l, ∃ k v, s = WSettle.okAt k v) →
      ∃ pcs, allOk l = some pcs := by
  intro l
  induction l with
  | nil => intro _; exact ⟨[], rfl⟩
  | cons s rest ih =>
      intro h
      obtain ⟨k, v, hs⟩ := h s (List.mem_cons_self s rest)
      obtain ⟨pcs, hp⟩ := ih fun s' hs' => h s' (List.mem_cons_of_mem s hs')
      subst hs
      exact ⟨(k, v) :: pcs, by simp [allOk, WSettle.okParts, hp]⟩

theorem allOk_none_of_mem_fail {α : Type} :
    ∀ (l : List (WSettle α)) (s : WSettle α), s ∈ l → s.okParts = none →
      allOk l = none := by
  intro l
  induction l with
  | nil => intro s hs; simp at hs
  | cons s0 rest ih =>
      intro s hs hfail
      rcases List.mem_cons.mp hs with h | h
      · subst h; simp [allOk, hfail]
      · rw [allOk, ih s h hfail]
        cases s0.okParts <;> rfl

theorem allOk_mem {α : Type} :
    ∀ (l : List (WSettle α)) (pcs : List (Nat × α)), allOk l = some pcs →
      ∀ s ∈ l, ∃ pc ∈ pcs, s.okParts = some pc := by
  intro l
  induction l with
  | nil => intro pcs _ s hs; simp at hs
  | cons s0 rest ih =>
      intro pcs hok s hs
      rw [allOk] at hok
      cases h0 : s0.okParts with
      | none => rw [h0] at hok; cases hok
      | some pc0 =>
          rw [h0] at hok
          cases hr : allOk rest with
          | none => rw [hr] at hok; cases hok
          | some pcs' =>
              rw [hr] at hok
              cases hok
              rcases List.mem_cons.mp hs with h | h
              · subst h; exact ⟨pc0, List.mem_cons_self pc0 pcs', h0⟩
              · obtain ⟨pc, hpc, hop⟩ := ih pcs' hr s h
                exact ⟨pc, List.mem_cons_of_mem pc0 hpc, hop⟩

theorem allOk_get {α : Type} :
    ∀ (l : List (WSettle α)) (pcs : List (Nat × α)), allOk l = some pcs →
      pcs.length = l.length ∧
        ∀ i s, l.get? i = some s → ∃ pc, pcs.get? i = some pc ∧
          s.okParts = some pc := by
  intro l
  induction l with
  | nil =>
      intro pcs hok
      cases hok
      exact ⟨rfl, fun i s hs => by simp at hs⟩
  | cons s0 rest ih =>
      intro pcs hok
      rw [allOk] at hok
      cases h0 : s0.okParts with
      | none => rw [h0] at hok; cases hok
      | some pc0 =>
          rw [h0] at hok
          cases hr : allOk rest with
          | none => rw [hr] at hok; cases hok
          | some pcs' =>
              rw [hr] at hok
              cases hok
              obtain ⟨hlen, hget⟩ := ih pcs' hr
              refine ⟨by simp [hlen], fun i s hs => ?_⟩
              cases i with
              | zero =>
                  simp only [List.get?] at hs
                  cases hs
                  exact ⟨pc0, rfl, h0⟩
              | succ i =>
                  simp only [List.get?] at hs
                  obtain ⟨pc, hpc, hop⟩ := hget i s hs
                  exact ⟨pc, hpc, hop⟩

theorem firstRejPos_none {α : Type} :
    ∀ (l : List (WSettle α)), firstRejPos l = none →
      ∀ k s, WSettle.rejectedAt k s ∉ l := by
  intro l
  induction l with
  | nil => intro _ k s h; simp at h
  | cons s0 rest ih =>
      intro hn k s hmem
      match s0, hn with
      | WSettle.okAt k0 v0, hn =>
          rcases List.mem_cons.mp hmem with h | h
          · cases h
          · exact ih (by simpa [firstRejPos] using hn) k s h
      | WSettle.timedOut, hn =>
          rcases List.mem_cons.mp hmem with h | h
          · cases h
          · exact ih (by simpa [firstRejPos] using hn) k s h
      | WSettle.rejectedAt k0 s0', hn =>
          rw [firstRejPos] at hn
          cases hr : firstRejPos rest with
          | none => rw [hr] at hn; cases hn
          | some m => rw [hr] at hn; cases hn

theorem firstRejPos_some {α : Type} :
    ∀ (l : List (WSettle α)) (p : Nat), firstRejPos l = some p →
      (∃ s, WSettle.rejectedAt p s ∈ l) ∧
        ∀ k s, WSettle.rejectedAt k s ∈ l → p ≤ k := by
  intro l
  induction l with
  | nil => intro p h; simp [firstRejPos] at h
  | cons s0 rest ih =>
      intro p hp
      match s0, hp with
      | WSettle.okAt k0 v0, hp =>
          have hp' : firstRejPos rest = some p := by simpa [firstRejPos] using hp
          obtain ⟨⟨s, hsmem⟩, hmin⟩ := ih p hp'
          refine ⟨⟨s, List.mem_cons_of_mem _ hsmem⟩, fun k s' hmem => ?_⟩
          rcases List.mem_cons.mp hmem with h | h
          · cases h
          · exact hmin k s' h
      | WSettle.timedOut, hp =>
          have hp' : firstRejPos rest = some p := by simpa [firstRejPos] using hp
          obtain ⟨⟨s, hsmem⟩, hmin⟩ := ih p hp'
          refine ⟨⟨s, List.mem_cons_of_mem _ hsmem⟩, fun k s' hmem => ?_⟩
          rcases List.mem_cons.mp hmem with h | h
          · cases h
          · exact hmin k s' h
      | WSettle.rejectedAt k0 s0', hp =>
          rw [firstRejPos] at hp
          cases hr : firstRejPos rest with
          | none =>
              rw [hr] at hp
              cases hp
              refine ⟨⟨s0', List.mem_cons_self _ _⟩, fun k s' hmem => ?_⟩
              rcases List.mem_cons.mp hmem with h | h
              · cases h; exact Nat.le_refl _
              · exact absurd h (firstRejPos_none rest hr k s')
          | some m =>
              rw [hr] at hp
              cases hp
              obtain ⟨⟨s, hsmem⟩, hmin⟩ := ih m hr
              refine ⟨?_, fun k s' hmem => ?_⟩
              · rcases Nat.le_total k0 m with hle | hle
                · exact ⟨s0', by rw [Nat.min_eq_left hle]; exact List.mem_cons_self _ _⟩
                · exact ⟨s, by rw [Nat.min_eq_right hle]; exact List.mem_cons_of_mem _ hsmem⟩
              · rcases List.mem_cons.mp hmem with h | h
                · cases h; exact Nat.min_le_left _ _
                · exact Nat.le_trans (Nat.min_le_right _ _) (hmin k s' h)

theorem foldlMax_init_le : ∀ (l : List Nat) (a : Nat), a ≤ l.foldl Nat.max a := by
  intro l
  induction l with
  | nil => intro a; exact Nat.le_refl a
  | cons x rest ih =>
      intro a
      exact Nat.le_trans (Nat.le_max_left a x) (ih (Nat.max a x))

theorem le_foldlMax_of_mem :
    ∀ (l : List Nat) (a x : Nat), x ∈ l → x ≤ l.foldl Nat.max a := by
  intro l
  induction l with
  | nil => intro a x h; simp at h
  | cons y rest ih =>
      intro a x h
      rcases List.mem_cons.mp h with h | h
      · subst h
        exact Nat.le_trans (Nat.le_max_right a x) (foldlMax_init_le rest (Nat.max a x))
      · exact ih (Nat.max a y) x h

/-! ### Lemmas about timing -/

/-- The host delivers events in nondecreasing time order. -/
def timeSorted (trace : List TEvent) : Prop :=
  trace.Pairwise fun a b => a.time ≤ b.time

theorem mem_truncate_of_sorted {T : Rat} :
    ∀ (trace : List TEvent), timeSorted trace →
      ∀ te ∈ trace, te.time < T → te.ev ∈ truncate T trace := by
  intro trace
  induction trace with
  | nil => intro _ te h; simp at h
  | cons x rest ih =>
      intro hs te hmem ht
      have hx : ∀ y ∈ rest, x.time ≤ y.time := (List.pairwise_cons.mp hs).1
      have hs' : timeSorted rest := (List.pairwise_cons.mp hs).2
      rcases List.mem_cons.mp hmem with h | h
      · subst h
        simp only [truncate, List.takeWhile_cons, decide_eq_true_eq, ht,
          if_pos, List.map_cons]
        exact List.mem_cons_self _ _
      · have hxt : x.time < T := lt_of_le_of_lt (hx te h) ht
        simp only [truncate, List.takeWhile_cons, decide_eq_true_eq, hxt,
          if_pos, List.map_cons]
        exact List.mem_cons_of_mem _ (ih hs' te h ht)

/-! ### Further lemmas about the polling loop -/

theorem customLoop_first_some {α ε : Type} (pred : Nat → Except ε (Option α)) :
    ∀ (evs : List Event) (n k calls j : Nat) (v : α), j < hbCount evs →
      (∀ i, i < j → pred (n + i) = .ok none) → pred (n + j) = .ok (some v) →
      ∃ kp, customLoop pred n k calls evs = ⟨.okAt kp v, calls + j + 1, false⟩ := by
  intro evs
  induction evs with
  | nil => intro n k calls j v hj; simp [hbCount] at hj
  | cons e rest ih =>
      intro n k calls j v hj hall hhit
      by_cases he : e = Event.heartbeat
      · subst he
        cases j with
        | zero =>
            have h0 : pred n = .ok (some v) := by simpa using hhit
            exact ⟨k, by rw [customLoop, if_pos rfl, h0]⟩
        | succ j =>
            have h0 : pred n = .ok none := by simpa using hall 0 (Nat.succ_pos j)
            rw [hbCount_cons_hb] at hj
            obtain ⟨kp, hkp⟩ := ih (n + 1) (k + 1) (calls + 1) j v (by omega)
              (fun i hi => by
                have := hall (i + 1) (by omega)
                have hsh : n + (i + 1) = n + 1 + i := by omega
                rwa [hsh] at this)
              (by
                have hsh : n + (j + 1) = n + 1 + j := by omega
                rwa [hsh] at hhit)
            refine ⟨kp, ?_⟩
            rw [customLoop, if_pos rfl, h0, hkp]
            have heq : calls + 1 + j + 1 = calls + (j + 1) + 1 := by omega
            rw [heq]
      · rw [hbCount_cons_other e rest he] at hj
        obtain ⟨kp, hkp⟩ := ih n (k + 1) calls j v hj hall hhit
        exact ⟨kp, by rw [customLoop, if_neg he, hkp]⟩

theorem customLoop_timedOut_elim {α ε : Type} (pred : Nat → Except ε (Option α)) :
    ∀ (evs : List Event) (n k calls : Nat),
      (customLoop pred n k calls evs).settle = .timedOut →
      ∀ j, j < hbCount evs → pred (n + j) = .ok none := by
  intro evs
  induction evs with
  | nil => intro n k calls _ j hj; simp [hbCount] at hj
  | cons e rest ih =>
      intro n k calls h j hj
      by_cases he : e = Event.heartbeat
      · subst he
        rw [customLoop, if_pos rfl] at h
        cases hp : pred n with
        | error err => rw [hp] at h; cases h
        | ok o =>
            cases o with
            | some v => rw [hp] at h; cases h
            | none =>
                rw [hp] at h
                cases j with
                | zero => simpa using hp
                | succ j =>
                    rw [hbCount_cons_hb] at hj
                    have := ih (n + 1) (k + 1) (calls + 1) h j (by omega)
                    have hsh : n + 1 + j = n + (j + 1) := by omega
                    rwa [hsh] at this
      · rw [customLoop, if_neg he] at h
        rw [hbCount_cons_other e rest he] at hj
        exact ih n (k + 1) calls h j hj

theorem customLoop_raisedAt_elim {α ε : Type} (pred : Nat → Except ε (Option α)) :
    ∀ (evs : List Event) (n k calls k' : Nat) (e : ε),
      (customLoop pred n k calls evs).settle = .raisedAt k' e →
      ∃ m, pred m = .error e := by
  intro evs
  induction evs with
  | nil => intro n k calls k' e h; simp [customLoop] at h
  | cons e0 rest ih =>
      intro n k calls k' e h
      by_cases he : e0 = Event.heartbeat
      · subst he
        rw [customLoop, if_pos rfl] at h
        cases hp : pred n with
        | error err =>
            rw [hp] at h
            cases h
            exact ⟨n, hp⟩
        | ok o =>
            cases o with
            | some v => rw [hp] at h; cases h
            | none => rw [hp] at h; exact ih (n + 1) (k + 1) (calls + 1) k' e h
      · rw [customLoop, if_neg he] at h
        exact ih n (k + 1) calls k' e h

example :
    (waitForChild ⟨0, [⟨true, 1, ⟨"A", "Part"⟩⟩]⟩ "A").immediate
      = some ⟨1, ⟨"A", "Part"⟩⟩ := by decide

example :
    (waitForChild ⟨0, []⟩ "A").settle
      [⟨1, Event.added true 5 ⟨"A", "Part"⟩⟩] = .okAt 1 ⟨5, ⟨"A", "Part"⟩⟩ := by
  decide

example :
    (waitForChild ⟨0, []⟩ "A").settle
      [⟨1, Event.destroying 0⟩] = .rejectedAt 1 "Destroyed" := by decide

example :
    (waitForChild ⟨0, []⟩ "A" false 2).settle
      [⟨3, Event.added true 5 ⟨"A", "Part"⟩⟩] = .timedOut := by decide

example :
    (waitForChildren ⟨0, []⟩ []).run [⟨1, Event.destroying 0⟩]
      = ⟨.ok [], 0⟩ := by decide

example :
    (waitForChildren ⟨0, [⟨true, 1, ⟨"A", "X"⟩⟩]⟩ ["A", "B"]).run
      [⟨1, Event.destroying 1⟩, ⟨2, Event.added true 2 ⟨"B", "X"⟩⟩]
      = ⟨.rejected "Destroyed", 0⟩ := by decide

example :
    (waitForChildren ⟨0, [⟨true, 1, ⟨"A", "X"⟩⟩]⟩ ["A", "B"]).run
      [⟨1, Event.added true 2 ⟨"B", "X"⟩⟩, ⟨2, Event.destroying 1⟩]
      = ⟨.ok [⟨1, ⟨"A", "X"⟩⟩, ⟨2, ⟨"B", "X"⟩⟩], 0⟩ := by decide

example :
    (waitForChildren ⟨0, [⟨true, 1, ⟨"A", "X"⟩⟩]⟩ ["A", "B"] false 5).run []
      = ⟨.timedOut, 1⟩ := by decide

example :
    (waitForChildren ⟨0, [⟨true, 1, ⟨"A", "X"⟩⟩]⟩ ["A", "B"] false 5).run
      [⟨1, Event.destroying 0⟩] = ⟨.rejected "Destroyed", 1⟩ := by decide

example :
    ((waitForCustom (fun n => (Except.ok (if n == 2 then some 7 else none) :
          Except String (Option Nat))) 5).run
      [⟨1, Event.heartbeat⟩, ⟨2, Event.heartbeat⟩, ⟨3, Event.heartbeat⟩])
      = ⟨.okAt 2 7, 3, false⟩ := by decide

theorem okParts_some_iff {α : Type} (s : WSettle α) (k : Nat) (v : α) :
    s.okParts = some (k, v) ↔ s = .okAt k v := by
  cases s <;> simp [WSettle.okParts]

theorem okParts_none_iff {α : Type} (s : WSettle α) :
    s.okParts = none ↔ (s = .timedOut ∨ ∃ k str, s = .rejectedAt k str) := by
  cases s <;> simp [WSettle.okParts]

theorem allOk_none_elim {α : Type} :
    ∀ (l : List (WSettle α)), allOk l = none → ∃ s ∈ l, s.okParts = none := by
  intro l
  induction l with
  | nil => intro h; cases h
  | cons s0 rest ih =>
      intro h
      cases h0 : s0.okParts with
      | none => exact ⟨s0, List.mem_cons_self _ _, h0⟩
      | some pc =>
          rw [allOk, h0] at h
          cases hr : allOk rest with
          | none =>
              obtain ⟨s, hs, hsn⟩ := ih hr
              exact ⟨s, List.mem_cons_of_mem _ hs, hsn⟩
          | some pcs => rw [hr] at h; cases h

/-! ## The claims -/

/-- C1: For every wait operation, if the awaited candidate already exists
at call time (the initial synchronous check succeeds), the operation
resolves immediately with that candidate and no subscription of any kind
is ever registered. -/
theorem initialCheckResolvesWithoutSubscription :
    (∀ (parent : Snapshot) (nm : String) (r : Bool) (t : Rat) (c : ChildEntry),
      parent.findFirstChild nm r = some c →
        (waitForChild parent nm r t).immediate = some c.found ∧
        (waitForChild parent nm r t).subscribeCount = 0 ∧
        ∀ trace, (waitForChild parent nm r t).settle trace = .okAt 0 c.found) ∧
    (∀ (parent : Snapshot) (isA : String → String → Bool) (cls : String)
      (r : Bool) (t : Rat) (c : ChildEntry),
      parent.findFirstChildWhichIsA isA cls r = some c →
        (waitForChildWhichIsA parent isA cls r t).immediate = some c.found ∧
        (waitForChildWhichIsA parent isA cls r t).subscribeCount = 0 ∧
        ∀ trace,
          (waitForChildWhichIsA parent isA cls r t).settle trace = .okAt 0 c.found) ∧
    (∀ (parent : Snapshot) (cls : String) (t : Rat) (c : ChildEntry),
      parent.findFirstChildOfClass cls = some c →
        (waitForChildOfClass parent cls t).immediate = some c.found ∧
        (waitForChildOfClass parent cls t).subscribeCount = 0 ∧
        ∀ trace, (waitForChildOfClass parent cls t).settle trace = .okAt 0 c.found) ∧
    (∀ (mid : Nat) (t : Rat) (p : Nat),
      (waitForPrimaryPart mid (some p) t).immediate = some p ∧
      (waitForPrimaryPart mid (some p) t).subscribeCount = 0 ∧
      ∀ trace, (waitForPrimaryPart mid (some p) t).settle trace = .okAt 0 p) ∧
    (∀ (oid : Nat) (t : Rat) (w : Nat),
      (waitForObjectValue oid (some w) t).immediate = some w ∧
      (waitForObjectValue oid (some w) t).subscribeCount = 0 ∧
      ∀ trace, (waitForObjectValue oid (some w) t).settle trace = .okAt 0 w) ∧
    (∀ {α ε : Type} (pred : Nat → Except ε (Option α)) (t : Rat) (v : α),
      pred 0 = .ok (some v) →
        (waitForCustom pred t).immediate = .ok (some v) ∧
        (waitForCustom pred t).subscribeCount = 0 ∧
        ∀ trace, (waitForCustom pred t).run trace = ⟨.immediateOk v, 1, false⟩) := by
  refine ⟨?_, ?_, ?_, ?_, ?_, ?_⟩
  · intro parent nm r t c h
    simp [waitForChild, h, WaitCall.resolvedNow]
  · intro parent isA cls r t c h
    simp [waitForChildWhichIsA, h, WaitCall.resolvedNow]
  · intro parent cls t c h
    simp [waitForChildOfClass, h, WaitCall.resolvedNow]
  · intro mid t p
    simp [waitForPrimaryPart, WaitCall.resolvedNow]
  · intro oid t w
    simp [waitForObjectValue, WaitCall.resolvedNow]
  · intro α ε pred t v h
    simp [waitForCustom, h]

theorem initialCheckResolvesWithoutSubscription_witness :
    (Snapshot.findFirstChild ⟨0, [⟨true, 1, ⟨"A", "Part"⟩⟩]⟩ "A" false
        = some ⟨true, 1, ⟨"A", "Part"⟩⟩ ∧
      (waitForChild ⟨0, [⟨true, 1, ⟨"A", "Part"⟩⟩]⟩ "A" false 60).immediate
        = some ⟨1, ⟨"A", "Part"⟩⟩ ∧
      (waitForChild ⟨0, [⟨true, 1, ⟨"A", "Part"⟩⟩]⟩ "A" false 60).subscribeCount = 0 ∧
      (waitForChild ⟨0, [⟨true, 1, ⟨"A", "Part"⟩⟩]⟩ "A" false 60).settle []
        = .okAt 0 ⟨1, ⟨"A", "Part"⟩⟩) ∧
    ((fun n => (Except.ok (if n == 0 then some 7 else none) :
          Except String (Option Nat))) 0 = .ok (some 7) ∧
      (waitForCustom (fun n => (Except.ok (if n == 0 then some 7 else none) :
          Except String (Option Nat))) 60).subscribeCount = 0 ∧
      (waitForCustom (fun n => (Except.ok (if n == 0 then some 7 else none) :
          Except String (Option Nat))) 60).run []
        = ⟨.immediateOk 7, 1, false⟩) := by
  constructor
  · have h := initialCheckResolvesWithoutSubscription.1
      ⟨0, [⟨true, 1, ⟨"A", "Part"⟩⟩]⟩ "A" false 60 ⟨true, 1, ⟨"A", "Part"⟩⟩ (by decide)
    exact ⟨by decide, h.1, h.2.1, h.2.2 []⟩
  · have h := initialCheckResolvesWithoutSubscription.2.2.2.2.2
      (fun n => (Except.ok (if n == 0 then some 7 else none) :
        Except String (Option Nat))) 60 7 rfl
    exact ⟨rfl, h.2.1, h.2.2 []⟩

/-- C9: `waitForChildren` called with an empty `childrenNames` array
resolves with the empty array for every parent, recursive flag, timeout and
delivered events; it never rejects with `ContainerDestroyed` or `Timeout`
in that case (and no secondary watch exists afterwards). -/
theorem waitForChildrenEmptyResolvesEmpty (parent : Snapshot) (r : Bool)
    (t : Rat) (trace : List TEvent) :
    (waitForChildren parent [] r t).run trace = ⟨.ok [], 0⟩ := rfl

theorem exists_src_of_mem_truncate {T : Rat} (trace : List TEvent) (e : Event) :
    e ∈ truncate T trace → ∃ te ∈ trace, te.ev = e := by
  intro h
  obtain ⟨te, hte, hev⟩ := List.mem_map.mp h
  exact ⟨te, (List.takeWhile_sublist _).subset hte, hev⟩

theorem whichIsA_okAt_direct (parent : Snapshot) (isA : String → String → Bool)
    (cls : String) (t : Rat) (trace : List TEvent) (k : Nat) (v : Found)
    (hnone : parent.findFirstChildWhichIsA isA cls true = none)
    (hok : (waitForChildWhichIsA parent isA cls true t).settle trace = .okAt k v) :
    ∃ j cid d, (truncate t trace).get? j = some (Event.added true cid d) ∧
      isA d.clsName cls = true ∧ k = 1 + j ∧ v = ⟨cid, d⟩ := by
  rw [waitForChildWhichIsA, hnone] at hok
  simp only [WaitCall.pending] at hok
  obtain ⟨j, e, hj, hfe, hde, hk⟩ := raceLoop_okAt_elim parent.id _ _ 1 k v hok
  cases e with
  | added direct cid d =>
      simp only [childAddedFilter, Bool.false_or] at hfe
      by_cases hdir : direct
      · subst hdir
        by_cases hisa : isA d.clsName cls
        · simp only [hisa, Bool.and_true, if_pos] at hfe
          cases hfe
          exact ⟨j, cid, d, hj, hisa, by omega, rfl⟩
        · simp [Bool.and_eq_true, hisa] at hfe
      · simp [Bool.eq_false_iff.mpr hdir] at hfe
  | destroying i => simp [childAddedFilter] at hfe
  | heartbeat => simp [childAddedFilter] at hfe
  | primaryPartChanged w => simp [childAddedFilter] at hfe
  | valueChanged w => simp [childAddedFilter] at hfe
  | attributeChanged n w => simp [childAddedFilter] at hfe

/-- C10: For `waitForChildWhichIsA`, the change subscription is always to
the parent's direct `ChildAdded` event even when `recursive` is true:
after a failed initial check the wait resolves only on direct additions,
so a matching instance later added as a non-direct descendant never
satisfies it; the initial synchronous check with `recursive = true`, in
contrast, does search all descendants. -/
theorem whichIsASubscribesDirectOnly :
    (∀ (parent : Snapshot) (isA : String → String → Bool) (cls : String)
      (t : Rat) (trace : List TEvent) (k : Nat) (v : Found),
      parent.findFirstChildWhichIsA isA cls true = none →
      (waitForChildWhichIsA parent isA cls true t).settle trace = .okAt k v →
        ∃ j cid d, (truncate t trace).get? j = some (Event.added true cid d) ∧
          isA d.clsName cls = true ∧ k = 1 + j ∧ v = ⟨cid, d⟩) ∧
    (∀ (parent : Snapshot) (isA : String → String → Bool) (cls : String)
      (t : Rat) (trace : List TEvent),
      parent.findFirstChildWhichIsA isA cls true = none →
      (∀ te ∈ trace, ∀ cid d, te.ev = Event.added true cid d →
        isA d.clsName cls = false) →
      ∀ k v, (waitForChildWhichIsA parent isA cls true t).settle trace ≠ .okAt k v) ∧
    (∀ (parent : Snapshot) (isA : String → String → Bool) (cls : String),
      (∃ c ∈ parent.desc, isA c.data.clsName cls = true) →
        ∃ c, parent.findFirstChildWhichIsA isA cls true = some c ∧
          isA c.data.clsName cls = true) := by
  refine ⟨?_, ?_, ?_⟩
  · exact whichIsA_okAt_direct
  · intro parent isA cls t trace hnone hnod k v hok
    obtain ⟨j, cid, d, hj, hisa, _, _⟩ :=
      whichIsA_okAt_direct parent isA cls t trace k v hnone hok
    obtain ⟨te, hte, hev⟩ :=
      exists_src_of_mem_truncate trace _ (List.get?_mem hj)
    exact absurd hisa (by rw [hnod te hte cid d hev]; simp)
  · intro parent isA cls hex
    have hsome : (parent.desc.find? fun c =>
        (true || c.direct) && isA c.data.clsName cls).isSome = true := by
      rw [List.find?_isSome]
      obtain ⟨c, hc, hisa⟩ := hex
      exact ⟨c, hc, by simp [hisa]⟩
    obtain ⟨c, hc⟩ := Option.isSome_iff_exists.mp hsome
    refine ⟨c, hc, ?_⟩
    have := List.find?_some hc
    simpa using this

theorem whichIsASubscribesDirectOnly_witness :
    ((Snapshot.findFirstChildWhichIsA ⟨0, []⟩ (fun a b => a == b) "B" true = none) ∧
      ∃ j cid d,
        (truncate 60 [⟨1, Event.added true 5 ⟨"x", "B"⟩⟩]).get? j
            = some (Event.added true cid d) ∧
          (fun a b => a == b) d.clsName "B" = true ∧ (1 : Nat) = 1 + j ∧
          (⟨5, ⟨"x", "B"⟩⟩ : Found) = ⟨cid, d⟩) ∧
    ((waitForChildWhichIsA ⟨0, []⟩ (fun a b => a == b) "B" true 60).settle
        [⟨1, Event.added false 5 ⟨"x", "B"⟩⟩] ≠ .okAt 1 ⟨5, ⟨"x", "B"⟩⟩) ∧
    ((∃ c ∈ (⟨0, [⟨false, 9, ⟨"d", "B"⟩⟩]⟩ : Snapshot).desc,
        (fun a b => a == b) c.data.clsName "B" = true) ∧
      ∃ c, Snapshot.findFirstChildWhichIsA ⟨0, [⟨false, 9, ⟨"d", "B"⟩⟩]⟩
          (fun a b => a == b) "B" true = some c ∧
        (fun a b => a == b) c.data.clsName "B" = true) := by
  refine ⟨⟨by decide, ?_⟩, ?_, ⟨by decide, ?_⟩⟩
  · exact whichIsASubscribesDirectOnly.1 ⟨0, []⟩ (fun a b => a == b) "B" 60
      [⟨1, Event.added true 5 ⟨"x", "B"⟩⟩] 1 ⟨5, ⟨"x", "B"⟩⟩ (by decide) (by decide)
  · exact whichIsASubscribesDirectOnly.2.1 ⟨0, []⟩ (fun a b => a == b) "B" 60
      [⟨1, Event.added false 5 ⟨"x", "B"⟩⟩] (by decide)
      (by intro te hte cid d hev
          rcases List.mem_cons.mp hte with h | h
          · subst h; cases hev
          · simp at h)
      1 ⟨5, ⟨"x", "B"⟩⟩
  · exact whichIsASubscribesDirectOnly.2.2 ⟨0, [⟨false, 9, ⟨"d", "B"⟩⟩]⟩
      (fun a b => a == b) "B" ⟨⟨false, 9, ⟨"d", "B"⟩⟩, by decide, by decide⟩

/-- C7: The core provides an attribute-present wait operation among its
public functions (modelled from the spec and the README, the implementation
being absent from `src/src/index.ts`): for every instance and attribute
name it resolves synchronously when the named attribute is non-empty at
call time, and otherwise resolves exactly on attribute-changed
notifications carrying that name and a non-empty value. -/
theorem attributePresentWait :
    (∀ (iid : Nat) (attrs : String → Option Nat) (an : String) (t : Rat) (v : Nat),
      attrs an = some v →
        (waitForAttribute iid attrs an t).immediate = some v ∧
        (waitForAttribute iid attrs an t).subscribeCount = 0 ∧
        ∀ trace, (waitForAttribute iid attrs an t).settle trace = .okAt 0 v) ∧
    (∀ (iid : Nat) (attrs : String → Option Nat) (an : String) (t : Rat)
      (trace : List TEvent) (j v : Nat),
      attrs an = none →
      (truncate t trace).get? j = some (Event.attributeChanged an (some v)) →
      (∀ i e', i < j → (truncate t trace).get? i = some e' →
        e' ≠ Event.destroying iid ∧ ∀ w, e' ≠ Event.attributeChanged an (some w)) →
      (waitForAttribute iid attrs an t).settle trace = .okAt (1 + j) v) ∧
    (∀ (iid : Nat) (attrs : String → Option Nat) (an : String) (t : Rat)
      (trace : List TEvent) (k v : Nat),
      attrs an = none →
      (waitForAttribute iid attrs an t).settle trace = .okAt k v →
        ∃ j, (truncate t trace).get? j
            = some (Event.attributeChanged an (some v)) ∧ k = 1 + j) := by
  refine ⟨?_, ?_, ?_⟩
  · intro iid attrs an t v h
    simp [waitForAttribute, h, WaitCall.resolvedNow]
  · intro iid attrs an t trace j v h hj hmin
    rw [waitForAttribute, h]
    simp only [WaitCall.pending]
    refine raceLoop_hit iid _ (truncate t trace) j _ v 1 hj (by simp) (by simp) ?_
    intro i e' hi hie hdec
    obtain ⟨hnd, hnattr⟩ := hmin i e' hi hie
    rcases hdec with hd | hf
    · exact hnd hd
    · cases e' with
      | attributeChanged n w =>
          by_cases hn : n = an
          · subst hn
            cases w with
            | none => simp at hf
            | some w0 => exact hnattr w0 rfl
          · simp [hn] at hf
      | added direct cid d => simp at hf
      | destroying i0 => simp at hf
      | heartbeat => simp at hf
      | primaryPartChanged w => simp at hf
      | valueChanged w => simp at hf
  · intro iid attrs an t trace k v h hok
    rw [waitForAttribute, h] at hok
    simp only [WaitCall.pending] at hok
    obtain ⟨j, e, hj, hfe, hde, hk⟩ := raceLoop_okAt_elim iid _ _ 1 k v hok
    cases e with
    | attributeChanged n w =>
        by_cases hn : n = an
        · subst hn
          simp only [if_pos] at hfe
          · cases hfe
            exact ⟨j, by simpa using hj, by omega⟩
        · simp [hn] at hfe
    | added direct cid d => simp at hfe
    | destroying i0 => simp at hfe
    | heartbeat => simp at hfe
    | primaryPartChanged w => simp at hfe
    | valueChanged w => simp at hfe

theorem attributePresentWait_witness :
    (((fun a => if a == "hp" then some 3 else none) "hp" = some 3) ∧
      (waitForAttribute 4 (fun a => if a == "hp" then some 3 else none) "hp" 60).immediate
        = some 3) ∧
    (((fun _ => (none : Option Nat)) "hp" = none) ∧
      (waitForAttribute 4 (fun _ => (none : Option Nat)) "hp" 60).settle
        [⟨1, Event.attributeChanged "hp" (some 8)⟩] = .okAt (1 + 0) 8) ∧
    ∃ j, (truncate 60 [⟨1, Event.attributeChanged "hp" (some 8)⟩]).get? j
        = some (Event.attributeChanged "hp" (some 8)) ∧ (1 : Nat) = 1 + j := by
  refine ⟨⟨rfl, ?_⟩, ⟨rfl, ?_⟩, ?_⟩
  · exact (attributePresentWait.1 4 (fun a => if a == "hp" then some 3 else none)
      "hp" 60 3 rfl).1
  · exact attributePresentWait.2.1 4 (fun _ => (none : Option Nat)) "hp" 60
      [⟨1, Event.attributeChanged "hp" (some 8)⟩] 0 8 rfl (by decide)
      (by intro i e' hi; omega)
  · exact attributePresentWait.2.2 4 (fun _ => (none : Option Nat)) "hp" 60
      [⟨1, Event.attributeChanged "hp" (some 8)⟩] 1 8 rfl (by decide)

theorem customLoop_no_immediateRaise {α ε : Type}
    (pred : Nat → Except ε (Option α)) :
    ∀ (evs : List Event) (n k calls : Nat) (e : ε),
      (customLoop pred n k calls evs).settle ≠ .immediateRaise e := by
  intro evs
  induction evs with
  | nil => intro n k calls e h; simp [customLoop] at h
  | cons e0 rest ih =>
      intro n k calls e h
      by_cases he : e0 = Event.heartbeat
      · subst he
        rw [customLoop, if_pos rfl] at h
        cases hp : pred n with
        | error err => rw [hp] at h; cases h
        | ok o => cases o with
          | some v => rw [hp] at h; cases h
          | none => rw [hp] at h; exact ih (n + 1) (k + 1) (calls + 1) e h
      · rw [customLoop, if_neg he] at h
        exact ih n (k + 1) calls e h

/-- C5: For `waitForCustom`, the predicate is invoked exactly once
synchronously at call time; if that call returns `undefined`, the predicate
is subsequently invoked exactly once per `Heartbeat` tick until it first
returns a non-`undefined` value — at which point the tick subscription is
disconnected and the promise resolves with that value — or until the
timeout elapses (at which point the cancellation has disconnected it). -/
theorem customPredicatePolling {α ε : Type} :
    (∀ (pred : Nat → Except ε (Option α)) (t : Rat),
      (waitForCustom pred t).immediate = pred 0) ∧
    (∀ (pred : Nat → Except ε (Option α)) (t : Rat) (v : α),
      pred 0 = .ok (some v) →
        ∀ trace, (waitForCustom pred t).run trace = ⟨.immediateOk v, 1, false⟩) ∧
    (∀ (pred : Nat → Except ε (Option α)) (t : Rat) (trace : List TEvent)
      (j : Nat) (v : α),
      pred 0 = .ok none → j < hbCount (truncate t trace) →
      (∀ i, i < j → pred (1 + i) = .ok none) → pred (1 + j) = .ok (some v) →
      ∃ kp, (waitForCustom pred t).run trace = ⟨.okAt kp v, 1 + j + 1, false⟩) ∧
    (∀ (pred : Nat → Except ε (Option α)) (t : Rat) (trace : List TEvent),
      pred 0 = .ok none →
      (∀ j, j < hbCount (truncate t trace) → pred (1 + j) = .ok none) →
      (waitForCustom pred t).run trace
        = ⟨.timedOut, 1 + hbCount (truncate t trace), false⟩) := by
  refine ⟨?_, ?_, ?_, ?_⟩
  · intro pred t
    cases h : pred 0 with
    | error e => simp [waitForCustom, h]
    | ok o => cases o with
      | some v => simp [waitForCustom, h]
      | none => simp [waitForCustom, h]
  · intro pred t v h trace
    simp [waitForCustom, h]
  · intro pred t trace j v h hj hall hhit
    simp only [waitForCustom, h]
    exact customLoop_first_some pred (truncate t trace) 1 1 1 j v hj hall hhit
  · intro pred t trace h hall
    simp only [waitForCustom, h]
    exact customLoop_all_none pred (truncate t trace) 1 1 1 hall

theorem customPredicatePolling_witness :
    (waitForCustom (fun _ => (Except.ok (some 7) : Except String (Option Nat)))
        5).run [] = ⟨.immediateOk 7, 1, false⟩ ∧
    (∃ kp, (waitForCustom (fun n => (Except.ok (if n == 2 then some 7 else none) :
        Except String (Option Nat))) 5).run
        [⟨1, Event.heartbeat⟩, ⟨2, Event.heartbeat⟩, ⟨3, Event.heartbeat⟩]
      = ⟨.okAt kp 7, 1 + 1 + 1, false⟩) ∧
    (waitForCustom (fun _ => (Except.ok none : Except String (Option Nat)))
        5).run [⟨1, Event.heartbeat⟩]
      = ⟨.timedOut, 1 + hbCount (truncate 5 [⟨1, Event.heartbeat⟩]), false⟩ := by
  refine ⟨?_, ?_, ?_⟩
  · exact customPredicatePolling.2.1
      (fun _ => (Except.ok (some 7) : Except String (Option Nat))) 5 7 rfl []
  · exact customPredicatePolling.2.2.1
      (fun n => (Except.ok (if n == 2 then some 7 else none) :
        Except String (Option Nat))) 5
      [⟨1, Event.heartbeat⟩, ⟨2, Event.heartbeat⟩, ⟨3, Event.heartbeat⟩] 1 7 rfl
      (by decide)
      (by intro i hi
          have hi0 : i = 0 := by omega
          subst hi0
          rfl)
      rfl
  · exact customPredicatePolling.2.2.2
      (fun _ => (Except.ok none : Except String (Option Nat))) 5
      [⟨1, Event.heartbeat⟩] rfl (by intro j hj; rfl)

/-- C6: Every operation produces at most one of exactly two failure kinds
at this layer — `ContainerDestroyed` (every `rejectedAt` settlement and
every batch rejection carries the value `WaitForError.Destroyed`) and
`Timeout`; predicate exceptions escape the core unwrapped as the
predicate's own error. -/
theorem failureTaxonomy :
    (∀ (parent : Snapshot) (nm : String) (r : Bool) (t : Rat)
      (trace : List TEvent) (k : Nat) (s : String),
      (waitForChild parent nm r t).settle trace = .rejectedAt k s →
        s = WaitForError.Destroyed) ∧
    (∀ (parent : Snapshot) (isA : String → String → Bool) (cls : String)
      (r : Bool) (t : Rat) (trace : List TEvent) (k : Nat) (s : String),
      (waitForChildWhichIsA parent isA cls r t).settle trace = .rejectedAt k s →
        s = WaitForError.Destroyed) ∧
    (∀ (parent : Snapshot) (cls : String) (t : Rat) (trace : List TEvent)
      (k : Nat) (s : String),
      (waitForChildOfClass parent cls t).settle trace = .rejectedAt k s →
        s = WaitForError.Destroyed) ∧
    (∀ (mid : Nat) (pp : Option Nat) (t : Rat) (trace : List TEvent)
      (k : Nat) (s : String),
      (waitForPrimaryPart mid pp t).settle trace = .rejectedAt k s →
        s = WaitForError.Destroyed) ∧
    (∀ (oid : Nat) (v : Option Nat) (t : Rat) (trace : List TEvent)
      (k : Nat) (s : String),
      (waitForObjectValue oid v t).settle trace = .rejectedAt k s →
        s = WaitForError.Destroyed) ∧
    (∀ (iid : Nat) (attrs : String → Option Nat) (an : String) (t : Rat)
      (trace : List TEvent) (k : Nat) (s : String),
      (waitForAttribute iid attrs an t).settle trace = .rejectedAt k s →
        s = WaitForError.Destroyed) ∧
    (∀ (parent : Snapshot) (names : List String) (r : Bool) (t : Rat)
      (trace : List TEvent) (s : String),
      ((waitForChildren parent names r t).run trace).outcome = .rejected s →
        s = WaitForError.Destroyed) ∧
    (∀ {α ε : Type} (pred : Nat → Except ε (Option α)) (t : Rat)
      (trace : List TEvent) (k : Nat) (e : ε),
      ((waitForCustom pred t).run trace).settle = .raisedAt k e →
        ∃ m, pred m = .error e) ∧
    (∀ {α ε : Type} (pred : Nat → Except ε (Option α)) (t : Rat)
      (trace : List TEvent) (e : ε),
      ((waitForCustom pred t).run trace).settle = .immediateRaise e →
        pred 0 = .error e) := by
  refine ⟨?_, ?_, ?_, ?_, ?_, ?_, ?_, ?_, ?_⟩
  · intro parent nm r t trace k s h
    cases hfc : parent.findFirstChild nm r with
    | some c => rw [waitForChild, hfc] at h; simp [WaitCall.resolvedNow] at h
    | none =>
        rw [waitForChild, hfc] at h
        exact raceLoop_rejectedAt_val _ _ _ _ _ _ h
  · intro parent isA cls r t trace k s h
    cases hfc : parent.findFirstChildWhichIsA isA cls r with
    | some c => rw [waitForChildWhichIsA, hfc] at h; simp [WaitCall.resolvedNow] at h
    | none =>
        rw [waitForChildWhichIsA, hfc] at h
        exact raceLoop_rejectedAt_val _ _ _ _ _ _ h
  · intro parent cls t trace k s h
    cases hfc : parent.findFirstChildOfClass cls with
    | some c => rw [waitForChildOfClass, hfc] at h; simp [WaitCall.resolvedNow] at h
    | none =>
        rw [waitForChildOfClass, hfc] at h
        exact raceLoop_rejectedAt_val _ _ _ _ _ _ h
  · intro mid pp t trace k s h
    cases pp with
    | some p => rw [waitForPrimaryPart] at h; simp [WaitCall.resolvedNow] at h
    | none =>
        rw [waitForPrimaryPart] at h
        exact raceLoop_rejectedAt_val _ _ _ _ _ _ h
  · intro oid v t trace k s h
    cases v with
    | some w => rw [waitForObjectValue] at h; simp [WaitCall.resolvedNow] at h
    | none =>
        rw [waitForObjectValue] at h
        exact raceLoop_rejectedAt_val _ _ _ _ _ _ h
  · intro iid attrs an t trace k s h
    cases hat : attrs an with
    | some w => rw [waitForAttribute, hat] at h; simp [WaitCall.resolvedNow] at h
    | none =>
        rw [waitForAttribute, hat] at h
        exact raceLoop_rejectedAt_val _ _ _ _ _ _ h
  · intro parent names r t trace s h
    have h' : (waitForChildrenRun parent names r t trace).outcome = .rejected s := h
    cases hall : allOk (batchSettles parent names r t trace) with
    | some pcs =>
        simp only [waitForChildrenRun, hall] at h'
        split at h'
        · cases h'; rfl
        · cases h'
    | none =>
        simp only [waitForChildrenRun, hall] at h'
        split at h'
        · cases h'; rfl
        · cases h'
  · intro α ε pred t trace k e h
    cases hp : pred 0 with
    | error e0 => rw [waitForCustom, hp] at h; cases h
    | ok o => cases o with
      | some v => rw [waitForCustom, hp] at h; cases h
      | none =>
          rw [waitForCustom, hp] at h
          exact customLoop_raisedAt_elim pred _ 1 1 1 k e h
  · intro α ε pred t trace e h
    cases hp : pred 0 with
    | error e0 =>
        rw [waitForCustom, hp] at h
        cases h
        rfl
    | ok o => cases o with
      | some v => rw [waitForCustom, hp] at h; cases h
      | none =>
          rw [waitForCustom, hp] at h
          exact absurd h (customLoop_no_immediateRaise pred _ 1 1 1 e)

theorem failureTaxonomy_witness :
    ((waitForChild ⟨0, []⟩ "A" false 60).settle [⟨1, Event.destroying 0⟩]
        = .rejectedAt 1 "Destroyed" ∧ "Destroyed" = WaitForError.Destroyed) ∧
    (((waitForChildren ⟨0, [⟨true, 1, ⟨"A", "X"⟩⟩]⟩ ["A", "B"] false 5).run
        [⟨1, Event.destroying 1⟩, ⟨2, Event.added true 2 ⟨"B", "X"⟩⟩]).outcome
        = .rejected "Destroyed" ∧ "Destroyed" = WaitForError.Destroyed) ∧
    (((waitForCustom (fun n => (if n == 0 then Except.ok none
          else Except.error "boom" : Except String (Option Nat))) 5).run
        [⟨1, Event.heartbeat⟩]).settle = .raisedAt 1 "boom" ∧
      ∃ m, (fun n => (if n == 0 then Except.ok none
          else Except.error "boom" : Except String (Option Nat))) m
        = .error "boom") := by
  refine ⟨⟨by decide, ?_⟩, ⟨by decide, ?_⟩, ⟨by decide, ?_⟩⟩
  · exact failureTaxonomy.1 ⟨0, []⟩ "A" false 60 [⟨1, Event.destroying 0⟩] 1
      "Destroyed" (by decide)
  · exact failureTaxonomy.2.2.2.2.2.2.1 ⟨0, [⟨true, 1, ⟨"A", "X"⟩⟩]⟩ ["A", "B"]
      false 5 [⟨1, Event.destroying 1⟩, ⟨2, Event.added true 2 ⟨"B", "X"⟩⟩]
      "Destroyed" (by decide)
  · exact failureTaxonomy.2.2.2.2.2.2.2.1
      (fun n => (if n == 0 then Except.ok none
        else Except.error "boom" : Except String (Option Nat))) 5
      [⟨1, Event.heartbeat⟩] 1 "boom" (by decide)

theorem settle_timedOut_noDecisive {α : Type} (pid : Nat) (f : Event → Option α)
    (T : Rat) (trace : List TEvent) (hs : timeSorted trace)
    (h : raceLoop pid f 1 (truncate T trace) = .timedOut) :
    ∀ te ∈ trace, te.time < T → ¬ decisive pid f te.ev := by
  intro te hm ht
  exact (raceLoop_timedOut_iff pid f (truncate T trace) 1).mp h te.ev
    (mem_truncate_of_sorted trace hs te hm ht)

/-- C8: Every public operation accepts a timeout parameter defaulting to
`DEFAULT_TIMEOUT = 60` seconds; with the timeout omitted, an operation
fails with `Timeout` only when no decisive event (satisfaction or
destruction) was delivered before 60 seconds. -/
theorem defaultTimeoutIsSixtySeconds :
    DEFAULT_TIMEOUT = 60 ∧
    (∀ (parent : Snapshot) (nm : String) (r : Bool),
      waitForChild parent nm r = waitForChild parent nm r 60) ∧
    (∀ (parent : Snapshot) (isA : String → String → Bool) (cls : String) (r : Bool),
      waitForChildWhichIsA parent isA cls r = waitForChildWhichIsA parent isA cls r 60) ∧
    (∀ (parent : Snapshot) (cls : String),
      waitForChildOfClass parent cls = waitForChildOfClass parent cls 60) ∧
    (∀ (parent : Snapshot) (names : List String) (r : Bool),
      waitForChildren parent names r = waitForChildren parent names r 60) ∧
    (∀ (mid : Nat) (pp : Option Nat),
      waitForPrimaryPart mid pp = waitForPrimaryPart mid pp 60) ∧
    (∀ (oid : Nat) (v : Option Nat),
      waitForObjectValue oid v = waitForObjectValue oid v 60) ∧
    (∀ (iid : Nat) (attrs : String → Option Nat) (an : String),
      waitForAttribute iid attrs an = waitForAttribute iid attrs an 60) ∧
    (∀ {α ε : Type} (pred : Nat → Except ε (Option α)),
      waitForCustom pred = waitForCustom pred 60) ∧
    (∀ (parent : Snapshot) (nm : String) (r : Bool) (trace : List TEvent),
      timeSorted trace → (waitForChild parent nm r).settle trace = .timedOut →
      ∀ te ∈ trace, te.time < 60 →
        ¬ decisive parent.id (childAddedFilter r fun d => d.name = nm) te.ev) ∧
    (∀ (parent : Snapshot) (isA : String → String → Bool) (cls : String)
      (r : Bool) (trace : List TEvent),
      timeSorted trace →
      (waitForChildWhichIsA parent isA cls r).settle trace = .timedOut →
      ∀ te ∈ trace, te.time < 60 →
        ¬ decisive parent.id (childAddedFilter false fun d => isA d.clsName cls)
          te.ev) ∧
    (∀ (parent : Snapshot) (cls : String) (trace : List TEvent),
      timeSorted trace →
      (waitForChildOfClass parent cls).settle trace = .timedOut →
      ∀ te ∈ trace, te.time < 60 →
        ¬ decisive parent.id (childAddedFilter false fun d => d.clsName = cls)
          te.ev) ∧
    (∀ (mid : Nat) (pp : Option Nat) (trace : List TEvent),
      timeSorted trace → (waitForPrimaryPart mid pp).settle trace = .timedOut →
      ∀ te ∈ trace, te.time < 60 → ¬ decisive mid primaryPartFilter te.ev) ∧
    (∀ (oid : Nat) (v : Option Nat) (trace : List TEvent),
      timeSorted trace → (waitForObjectValue oid v).settle trace = .timedOut →
      ∀ te ∈ trace, te.time < 60 → ¬ decisive oid objectValueFilter te.ev) ∧
    (∀ (parent : Snapshot) (names : List String) (r : Bool) (trace : List TEvent),
      ((waitForChildren parent names r).run trace).outcome = .timedOut →
      ∃ nm ∈ names, (waitForChild parent nm r).settle trace = .timedOut) ∧
    (∀ {α ε : Type} (pred : Nat → Except ε (Option α)) (trace : List TEvent),
      ((waitForCustom pred).run trace).settle = .timedOut →
        pred 0 = .ok none ∧
        ∀ j, j < hbCount (truncate 60 trace) → pred (1 + j) = .ok none) := by
  refine ⟨rfl, fun _ _ _ => rfl, fun _ _ _ _ => rfl, fun _ _ => rfl,
    fun _ _ _ => rfl, fun _ _ => rfl, fun _ _ => rfl, fun _ _ _ => rfl,
    fun _ => rfl, ?_, ?_, ?_, ?_, ?_, ?_, ?_⟩
  · intro parent nm r trace hs h
    cases hfc : parent.findFirstChild nm r with
    | some c => rw [waitForChild, hfc] at h; simp [WaitCall.resolvedNow] at h
    | none =>
        rw [waitForChild, hfc] at h
        exact settle_timedOut_noDecisive _ _ _ trace hs h
  · intro parent isA cls r trace hs h
    cases hfc : parent.findFirstChildWhichIsA isA cls r with
    | some c => rw [waitForChildWhichIsA, hfc] at h; simp [WaitCall.resolvedNow] at h
    | none =>
        rw [waitForChildWhichIsA, hfc] at h
        exact settle_timedOut_noDecisive _ _ _ trace hs h
  · intro parent cls trace hs h
    cases hfc : parent.findFirstChildOfClass cls with
    | some c => rw [waitForChildOfClass, hfc] at h; simp [WaitCall.resolvedNow] at h
    | none =>
        rw [waitForChildOfClass, hfc] at h
        exact settle_timedOut_noDecisive _ _ _ trace hs h
  · intro mid pp trace hs h
    cases pp with
    | some p => rw [waitForPrimaryPart] at h; simp [WaitCall.resolvedNow] at h
    | none =>
        rw [waitForPrimaryPart] at h
        exact settle_timedOut_noDecisive _ _ _ trace hs h
  · intro oid v trace hs h
    cases v with
    | some w => rw [waitForObjectValue] at h; simp [WaitCall.resolvedNow] at h
    | none =>
        rw [waitForObjectValue] at h
        exact settle_timedOut_noDecisive _ _ _ trace hs h
  · intro parent names r trace h
    have h' : (waitForChildrenRun parent names r DEFAULT_TIMEOUT trace).outcome
        = .timedOut := h
    cases hall : allOk (batchSettles parent names r DEFAULT_TIMEOUT trace) with
    | some pcs =>
        simp only [waitForChildrenRun, hall] at h'
        split at h'
        · cases h'
        · cases h'
    | none =>
        simp only [waitForChildrenRun, hall] at h'
        split at h'
        · cases h'
        · obtain ⟨s, hsmem, hsn⟩ := allOk_none_elim _ hall
          rcases (okParts_none_iff s).mp hsn with hto | ⟨k, str, hrej⟩
          · subst hto
            obtain ⟨nm, hnm, hfe⟩ := List.mem_map.mp (by
              simpa [batchSettles] using hsmem)
            exact ⟨nm, hnm, hfe⟩
          · subst hrej
            rename_i hrejnone
            exact absurd hsmem (firstRejPos_none _ hrejnone k str)
  · intro α ε pred trace h
    cases hp : pred 0 with
    | error e => rw [waitForCustom, hp] at h; cases h
    | ok o => cases o with
      | some v => rw [waitForCustom, hp] at h; cases h
      | none =>
          rw [waitForCustom, hp] at h
          exact ⟨rfl, customLoop_timedOut_elim pred _ 1 1 1 h⟩

theorem defaultTimeoutIsSixtySeconds_witness :
    (timeSorted [⟨1, Event.heartbeat⟩] ∧
      (waitForChild ⟨0, []⟩ "A" false).settle [⟨1, Event.heartbeat⟩] = .timedOut ∧
      ¬ decisive 0 (childAddedFilter false fun d => d.name = "A") Event.heartbeat) ∧
    (((waitForChildren ⟨0, []⟩ ["A"] false).run []).outcome = .timedOut ∧
      ∃ nm ∈ ["A"], (waitForChild ⟨0, []⟩ nm false).settle ([] : List TEvent)
        = .timedOut) ∧
    (((waitForCustom (fun _ => (Except.ok none : Except String (Option Nat)))).run
        [⟨1, Event.heartbeat⟩]).settle = .timedOut ∧
      (fun _ => (Except.ok none : Except String (Option Nat))) 0 = .ok none) := by
  refine ⟨⟨List.pairwise_singleton _ _, by decide, ?_⟩, ⟨by decide, ?_⟩,
    ⟨by decide, ?_⟩⟩
  · exact defaultTimeoutIsSixtySeconds.2.2.2.2.2.2.2.2.2.1 ⟨0, []⟩ "A" false
      [⟨1, Event.heartbeat⟩] (List.pairwise_singleton _ _) (by decide)
      ⟨1, Event.heartbeat⟩ (List.mem_singleton.mpr rfl) (by decide)
  · exact defaultTimeoutIsSixtySeconds.2.2.2.2.2.2.2.2.2.2.2.2.2.2.1 ⟨0, []⟩
      ["A"] false [] (by decide)
  · exact (defaultTimeoutIsSixtySeconds.2.2.2.2.2.2.2.2.2.2.2.2.2.2.2
      (fun _ => (Except.ok none : Except String (Option Nat)))
      [⟨1, Event.heartbeat⟩] (by decide)).1

/-- C2: In the batch wait, if any already-resolved child's `Destroying`
fires (at truncated-trace index `j`, at or after that child's resolution
position `k`, i.e. `k ≤ j`) while the batch is still incomplete (some
constituent resolves only at a position `> j`), then even though every
individual per-child wait succeeded the whole operation rejects with
`WaitForError.Destroyed` instead of resolving. -/
theorem batchRejectsWhenResolvedChildDestroyed
    (parent : Snapshot) (names : List String) (r : Bool) (t : Rat)
    (trace : List TEvent)
    (hall : ∀ nm ∈ names, ∃ k c,
      (waitForChild parent nm r t).settle trace = .okAt k c)
    (hdes : ∃ nm ∈ names, ∃ k c,
      (waitForChild parent nm r t).settle trace = .okAt k c ∧
      ∃ j, (truncate t trace).get? j = some (Event.destroying c.id) ∧ k ≤ j ∧
        ∃ nm' ∈ names, ∃ k' c',
          (waitForChild parent nm' r t).settle trace = .okAt k' c' ∧ j + 1 ≤ k') :
    ((waitForChildren parent names r t).run trace).outcome
      = .rejected WaitForError.Destroyed := by
  have h1 : ∀ s ∈ batchSettles parent names r t trace,
      ∃ k v, s = WSettle.okAt k v := by
    intro s hs
    obtain ⟨nm, hnm, hfe⟩ := List.mem_map.mp (by simpa [batchSettles] using hs)
    obtain ⟨k, c, hset⟩ := hall nm hnm
    exact ⟨k, c, by rw [← hfe, hset]⟩
  obtain ⟨pcs, hpcs⟩ := allOk_of_forall_ok _ h1
  obtain ⟨nm, hnm, k, c, hset, j, hj, hkj, nm', hnm', k', c', hset', hjk'⟩ := hdes
  have hmem : WSettle.okAt k c ∈ batchSettles parent names r t trace := by
    simp only [batchSettles]
    exact List.mem_map.mpr ⟨nm, hnm, hset⟩
  have hmem' : WSettle.okAt k' c' ∈ batchSettles parent names r t trace := by
    simp only [batchSettles]
    exact List.mem_map.mpr ⟨nm', hnm', hset'⟩
  obtain ⟨pc, hpc, hop⟩ := allOk_mem _ pcs hpcs _ hmem
  obtain ⟨pc', hpc', hop'⟩ := allOk_mem _ pcs hpcs _ hmem'
  have hpckc : pc = (k, c) := by
    have := hop.symm
    simpa [WSettle.okParts] using this
  have hpckc' : pc' = (k', c') := by
    have := hop'.symm
    simpa [WSettle.okParts] using this
  subst hpckc
  subst hpckc'
  have hkmax : k' ≤ (pcs.map Prod.fst).foldl Nat.max 0 :=
    le_foldlMax_of_mem _ 0 k' (List.mem_map.mpr ⟨(k', c'), hpc', rfl⟩)
  obtain ⟨hjlen, -⟩ := List.get?_eq_some.mp hj
  have hflag : destroyedFlag (truncate t trace) pcs
      ((pcs.map Prod.fst).foldl Nat.max 0) = true := by
    rw [destroyedFlag, List.any_eq_true]
    refine ⟨(k, c), hpc, ?_⟩
    rw [List.any_eq_true]
    refine ⟨j, List.mem_range.mpr hjlen, ?_⟩
    simp only [Bool.and_eq_true, decide_eq_true_eq]
    exact ⟨⟨hj, by omega⟩, by omega⟩
  have hgoal : (waitForChildrenRun parent names r t trace).outcome
      = .rejected WaitForError.Destroyed := by
    simp only [waitForChildrenRun, hpcs]
    rw [if_pos hflag]
  exact hgoal

theorem batchRejectsWhenResolvedChildDestroyed_witness :
    (∀ nm ∈ ["A", "B"], ∃ k c,
      (waitForChild ⟨0, [⟨true, 1, ⟨"A", "X"⟩⟩]⟩ nm false 5).settle
        [⟨1, Event.destroying 1⟩, ⟨2, Event.added true 2 ⟨"B", "X"⟩⟩]
        = .okAt k c) ∧
    ((waitForChildren ⟨0, [⟨true, 1, ⟨"A", "X"⟩⟩]⟩ ["A", "B"] false 5).run
        [⟨1, Event.destroying 1⟩, ⟨2, Event.added true 2 ⟨"B", "X"⟩⟩]).outcome
      = .rejected WaitForError.Destroyed := by
  constructor
  · intro nm hnm
    rcases List.mem_cons.mp hnm with h | h
    · subst h; exact ⟨0, ⟨1, ⟨"A", "X"⟩⟩, by decide⟩
    · rcases List.mem_cons.mp h with h2 | h2
      · subst h2; exact ⟨2, ⟨2, ⟨"B", "X"⟩⟩, by decide⟩
      · simp at h2
  · refine batchRejectsWhenResolvedChildDestroyed ⟨0, [⟨true, 1, ⟨"A", "X"⟩⟩]⟩
      ["A", "B"] false 5
      [⟨1, Event.destroying 1⟩, ⟨2, Event.added true 2 ⟨"B", "X"⟩⟩] ?_ ?_
    · intro nm hnm
      rcases List.mem_cons.mp hnm with h | h
      · subst h; exact ⟨0, ⟨1, ⟨"A", "X"⟩⟩, by decide⟩
      · rcases List.mem_cons.mp h with h2 | h2
        · subst h2; exact ⟨2, ⟨2, ⟨"B", "X"⟩⟩, by decide⟩
        · simp at h2
    · exact ⟨"A", by decide, 0, ⟨1, ⟨"A", "X"⟩⟩, by decide, 0, by decide, by decide,
        "B", by decide, 2, ⟨2, ⟨"B", "X"⟩⟩, by decide, by decide⟩

/-- C4: When the batch wait resolves successfully, the resolved array has
one entry per requested name and its `i`-th element is exactly the child
the `i`-th name's constituent wait resolved with, independent of the order
in which the children were discovered. -/
theorem batchPreservesInputOrder (parent : Snapshot) (names : List String)
    (r : Bool) (t : Rat) (trace : List TEvent) (l : List Found)
    (h : ((waitForChildren parent names r t).run trace).outcome = .ok l) :
    l.length = names.length ∧
    ∀ i nm, names.get? i = some nm → ∃ k c,
      (waitForChild parent nm r t).settle trace = .okAt k c ∧
        l.get? i = some c := by
  have h' : (waitForChildrenRun parent names r t trace).outcome = .ok l := h
  cases hall : allOk (batchSettles parent names r t trace) with
  | none =>
      simp only [waitForChildrenRun, hall] at h'
      split at h'
      · cases h'
      · cases h'
  | some pcs =>
      simp only [waitForChildrenRun, hall] at h'
      split at h'
      · cases h'
      · cases h'
        obtain ⟨hlen, hget⟩ := allOk_get _ pcs hall
        have hslen : (batchSettles parent names r t trace).length = names.length := by
          simp [batchSettles]
        constructor
        · rw [List.length_map, hlen, hslen]
        · intro i nm hnm
          have hsget : (batchSettles parent names r t trace).get? i
              = some ((waitForChild parent nm r t).settle trace) := by
            simp only [batchSettles]
            rw [List.get?_map, hnm]
            rfl
          obtain ⟨pc, hpc, hop⟩ := hget i _ hsget
          have hset : (waitForChild parent nm r t).settle trace
              = .okAt pc.1 pc.2 := (okParts_some_iff _ pc.1 pc.2).mp (by
            rw [hop])
          refine ⟨pc.1, pc.2, hset, ?_⟩
          rw [List.get?_map, hpc]
          rfl

theorem batchPreservesInputOrder_witness :
    (((waitForChildren ⟨0, [⟨true, 1, ⟨"A", "X"⟩⟩]⟩ ["A", "B"] false 5).run
        [⟨1, Event.added true 2 ⟨"B", "X"⟩⟩]).outcome
      = .ok [⟨1, ⟨"A", "X"⟩⟩, ⟨2, ⟨"B", "X"⟩⟩]) ∧
    ([⟨1, ⟨"A", "X"⟩⟩, ⟨2, ⟨"B", "X"⟩⟩] : List Found).length
      = (["A", "B"] : List String).length ∧
    ∃ k c, (waitForChild ⟨0, [⟨true, 1, ⟨"A", "X"⟩⟩]⟩ "B" false 5).settle
        [⟨1, Event.added true 2 ⟨"B", "X"⟩⟩] = .okAt k c ∧
      ([⟨1, ⟨"A", "X"⟩⟩, ⟨2, ⟨"B", "X"⟩⟩] : List Found).get? 1 = some c := by
  have h := batchPreservesInputOrder ⟨0, [⟨true, 1, ⟨"A", "X"⟩⟩]⟩ ["A", "B"]
    false 5 [⟨1, Event.added true 2 ⟨"B", "X"⟩⟩]
    [⟨1, ⟨"A", "X"⟩⟩, ⟨2, ⟨"B", "X"⟩⟩] (by decide)
  exact ⟨by decide, h.1, h.2 1 "B" rfl⟩

/-- C3 counterexample: a batch over names `["A", "B"]` where "A" exists at
call time (its secondary destroy watch is connected immediately) and "B"
never appears.  The batch decision is made — the operation rejects with the
timeout — yet the secondary watch on "A" is never disconnected (`leaked = 1`),
because `Promise.all(...).then` only runs its disconnect handler on the
success path. -/
theorem batchWatchRelease_counterexample :
    ((waitForChildren ⟨0, [⟨true, 1, ⟨"A", "X"⟩⟩]⟩ ["A", "B"] false 5).run
        []).outcome = .timedOut ∧
    ((waitForChildren ⟨0, [⟨true, 1, ⟨"A", "X"⟩⟩]⟩ ["A", "B"] false 5).run
        []).leaked = 1 := by decide

/-- C3 (amended): the secondary per-child destroy watches are all
disconnected whenever the batch decision is made by the `Promise.all`
success handler — that is, whenever every constituent wait resolved,
whether the decision is success or the destroyed-flag rejection.  But when
a constituent child-wait fails (timeout, or destroy of the parent), the
success handler never runs: every watch connected for a child that
resolved before every constituent rejection stays connected. -/
theorem batchWatchReleaseOnSuccessPath :
    (∀ (parent : Snapshot) (names : List String) (r : Bool) (t : Rat)
      (trace : List TEvent) (pcs : List (Nat × Found)),
      allOk (batchSettles parent names r t trace) = some pcs →
      ((waitForChildren parent names r t).run trace).leaked = 0) ∧
    (∀ (parent : Snapshot) (names : List String) (r : Bool) (t : Rat)
      (trace : List TEvent),
      (∃ nm ∈ names, (waitForChild parent nm r t).settle trace = .timedOut ∨
        ∃ k s, (waitForChild parent nm r t).settle trace = .rejectedAt k s) →
      (∃ nm ∈ names, ∃ k c,
        (waitForChild parent nm r t).settle trace = .okAt k c ∧
        ∀ nm' ∈ names, ∀ k' s',
          (waitForChild parent nm' r t).settle trace = .rejectedAt k' s' →
            k < k') →
      1 ≤ ((waitForChildren parent names r t).run trace).leaked) := by
  constructor
  · intro parent names r t trace pcs hpcs
    have hgoal : (waitForChildrenRun parent names r t trace).leaked = 0 := by
      simp only [waitForChildrenRun, hpcs]
      split <;> rfl
    exact hgoal
  · intro parent names r t trace hfail hres
    obtain ⟨nmf, hnmf, hf⟩ := hfail
    have hfmem : (waitForChild parent nmf r t).settle trace
        ∈ batchSettles parent names r t trace := by
      simp only [batchSettles]
      exact List.mem_map.mpr ⟨nmf, hnmf, rfl⟩
    have hfnone : ((waitForChild parent nmf r t).settle trace).okParts = none := by
      rcases hf with hto | ⟨k, s, hrej⟩
      · rw [hto]; rfl
      · rw [hrej]; rfl
    have hallnone : allOk (batchSettles parent names r t trace) = none :=
      allOk_none_of_mem_fail _ _ hfmem hfnone
    obtain ⟨nm, hnm, k, c, hset, hbound⟩ := hres
    have hmem : WSettle.okAt k c ∈ batchSettles parent names r t trace := by
      simp only [batchSettles]
      exact List.mem_map.mpr ⟨nm, hnm, hset⟩
    have hkres : k ∈ resolvedPositions (batchSettles parent names r t trace) := by
      rw [resolvedPositions]
      exact List.mem_filterMap.mpr ⟨WSettle.okAt k c, hmem, rfl⟩
    have hgoal : 1 ≤ (waitForChildrenRun parent names r t trace).leaked := by
      simp only [waitForChildrenRun, hallnone]
      cases hrej : firstRejPos (batchSettles parent names r t trace) with
      | some p =>
          obtain ⟨⟨s0, hs0⟩, -⟩ := firstRejPos_some _ p hrej
          obtain ⟨nm'', hnm'', hfe''⟩ := List.mem_map.mp (by
            simpa [batchSettles] using hs0)
          have hkp : k < p := hbound nm'' hnm'' p s0 hfe''
          have hmemfil : k ∈ (resolvedPositions
              (batchSettles parent names r t trace)).filter
                fun x => decide (x < p) := by
            rw [List.mem_filter]
            exact ⟨hkres, by simpa using hkp⟩
          exact List.length_pos.mpr (List.ne_nil_of_mem hmemfil)
      | none =>
          exact List.length_pos.mpr (List.ne_nil_of_mem hkres)
    exact hgoal

theorem batchWatchReleaseOnSuccessPath_witness :
    (allOk (batchSettles ⟨0, [⟨true, 1, ⟨"A", "X"⟩⟩]⟩ ["A", "B"] false 5
        [⟨1, Event.added true 2 ⟨"B", "X"⟩⟩]) = some [(0, ⟨1, ⟨"A", "X"⟩⟩),
        (1, ⟨2, ⟨"B", "X"⟩⟩)] ∧
      ((waitForChildren ⟨0, [⟨true, 1, ⟨"A", "X"⟩⟩]⟩ ["A", "B"] false 5).run
        [⟨1, Event.added true 2 ⟨"B", "X"⟩⟩]).leaked = 0) ∧
    1 ≤ ((waitForChildren ⟨0, [⟨true, 1, ⟨"A", "X"⟩⟩]⟩ ["A", "B"] false 5).run
        []).leaked := by
  constructor
  · exact ⟨by decide, batchWatchReleaseOnSuccessPath.1 ⟨0, [⟨true, 1, ⟨"A", "X"⟩⟩]⟩
      ["A", "B"] false 5 [⟨1, Event.added true 2 ⟨"B", "X"⟩⟩]
      [(0, ⟨1, ⟨"A", "X"⟩⟩), (1, ⟨2, ⟨"B", "X"⟩⟩)] (by decide)⟩
  · refine batchWatchReleaseOnSuccessPath.2 ⟨0, [⟨true, 1, ⟨"A", "X"⟩⟩]⟩
      ["A", "B"] false 5 [] ⟨"B", by decide, Or.inl (by decide)⟩
      ⟨"A", by decide, 0, ⟨1, ⟨"A", "X"⟩⟩, by decide, ?_⟩
    intro nm' hnm' k' s' hrej
    rcases List.mem_cons.mp hnm' with h | h
    · subst h
      have : (waitForChild ⟨0, [⟨true, 1, ⟨"A", "X"⟩⟩]⟩ "A" false 5).settle
          ([] : List TEvent) = .okAt 0 ⟨1, ⟨"A", "X"⟩⟩ := by decide
      rw [this] at hrej
      cases hrej
    · rcases List.mem_cons.mp h with h2 | h2
      · subst h2
        have : (waitForChild ⟨0, [⟨true, 1, ⟨"A", "X"⟩⟩]⟩ "B" false 5).settle
            ([] : List TEvent) = .timedOut := by decide
        rw [this] at hrej
        cases hrej
      · simp at h2
